import Mathlib

/-!
Shallow embedding of the transaction-analytics engine of `finance_ai.py`
(AI-Powered-Finance-Management-Tool) and proofs about it.

Amounts are modelled as rationals, dates as explicit (year, month, day)
records, pandas data frames as lists of row records.  Dollar formatting is
rendered without thousands separators; no property below depends on the
separators.
-/

/-- Characters treated as whitespace by Python's `str.strip` and `\s` (ASCII range). -/
def pyIsSpace (c : Char) : Bool :=
  c = ' ' || c = '\t' || c = '\n' || c = '\r' || c = '\x0b' || c = '\x0c'

/-- Characters kept verbatim by the `re.sub(r"[^a-z0-9 ]+", " ", s)` step of
`normalize_text`. -/
def keptChar (c : Char) : Bool :=
  ('a' ≤ c && c ≤ 'z') || ('0' ≤ c && c ≤ '9') || c = ' '

/-- Python `str.strip()`: drop leading and trailing whitespace. -/
def pyStrip (l : List Char) : List Char :=
  ((l.dropWhile pyIsSpace).reverse.dropWhile pyIsSpace).reverse

/-- Python `re.sub(r"[^a-z0-9 ]+", " ", s)`: each maximal run of non-kept
characters becomes a single space.  The flag records whether the scanner is
inside such a run. -/
def subNonKept (inRun : Bool) : List Char → List Char
  | [] => []
  | c :: cs =>
    if keptChar c then c :: subNonKept false cs
    else if inRun then subNonKept true cs
    else ' ' :: subNonKept true cs

/-- Python `re.sub(r"\s+", " ", s)`: each maximal run of whitespace becomes a
single space. -/
def collapseWs (inRun : Bool) : List Char → List Char
  | [] => []
  | c :: cs =>
    if pyIsSpace c then
      if inRun then collapseWs true cs else ' ' :: collapseWs true cs
    else c :: collapseWs false cs

/-- `normalize_text` from `finance_ai.py`: lowercase, strip, replace runs of
characters outside `[a-z0-9 ]` by one space, collapse whitespace runs.  The
strip happens before the substitutions, exactly as in the source. -/
def normalize_text (s : String) : String :=
  String.mk (collapseWs false (subNonKept false (pyStrip (s.data.map Char.toLower))))

/-- Python `kw in text` for strings: contiguous-substring test. -/
def substrHit (kw : List Char) : List Char → Bool
  | [] => kw.isEmpty
  | c :: cs => kw.isPrefixOf (c :: cs) || substrHit kw cs

/-- String form of the substring test. -/
def containsSub (kw text : String) : Bool := substrHit kw.data text.data

/-- `default_category_rules` from `finance_ai.py`, as an insertion-ordered list. -/
def default_category_rules : List (String × List String) :=
  [("Groceries", ["walmart", "aldi", "kroger", "whole foods", "safeway", "instacart"]),
   ("Dining", ["mcdonald", "burger king", "kfc", "chipotle", "starbucks", "ubereats", "doordash"]),
   ("Transport", ["uber", "lyft", "shell", "chevron", "exxon", "bp", "metro"]),
   ("Utilities", ["comcast", "xfinity", "verizon", "atandt", "electric", "water", "gas bill"]),
   ("Shopping", ["amazon", "target", "best buy", "walmart.com", "costco"]),
   ("Entertainment", ["netflix", "spotify", "hulu", "steam", "playstation"]),
   ("Health", ["cvs", "walgreens", "rite aid", "pharmacy", "dental", "clinic"]),
   ("Housing", ["rent", "mortgage", "landlord"]),
   ("Income", ["payroll", "salary", "direct deposit", "stripe", "paypal"]),
   ("Other", [])]

/-- Python `rules.get("Income", [])` on the insertion-ordered rule list. -/
def incomeKeywords (rules : List (String × List String)) : List String :=
  ((rules.find? (fun p => p.1 == "Income")).map Prod.snd).getD []

/-- The expense loop of `categorize_row`: iterate the rules in stored order,
skip "Income", return the first category one of whose keywords occurs in the
text. -/
def expenseLoop (text : String) : List (String × List String) → Option String
  | [] => none
  | (cat, kws) :: rest =>
    if cat == "Income" then expenseLoop text rest
    else if kws.any (fun kw => containsSub kw text) then some cat
    else expenseLoop text rest

/-- `categorize_row` from `finance_ai.py`.  The positive branch scans the
Income keywords but returns "Income" whether or not any of them matches, as in
the source. -/
def categorize_row (desc : String) (amount : ℚ)
    (rules : List (String × List String)) : String × String :=
  let text := normalize_text desc
  if 0 < amount then
    if (incomeKeywords rules).any (fun kw => containsSub kw text) then ("Income", text)
    else ("Income", text)
  else
    match expenseLoop text rules with
    | some cat => (cat, text)
    | none => ("Other", text)

/-- Stated from the specification of §4.1 expense classification: the first
category in stored order, "Income" excluded, one of whose keywords occurs in
the normalized text wins; no match anywhere gives "Other". -/
def specExpenseCategory (text : String) (rules : List (String × List String)) : String :=
  match rules.find? (fun p => p.1 != "Income" && p.2.any (fun kw => containsSub kw text)) with
  | some p => p.1
  | none => "Other"

/-- Calendar date, as Python's `datetime.date`. -/
structure Date where
  year : Int
  month : Nat
  day : Nat
deriving DecidableEq, Repr

/-- Python date comparison: lexicographic on (year, month, day). -/
def dateLe (a b : Date) : Bool :=
  decide (a.year < b.year ∨ (a.year = b.year ∧
    (a.month < b.month ∨ (a.month = b.month ∧ a.day ≤ b.day))))

/-- Gregorian leap-year test. -/
def isLeap (y : Int) : Bool := y % 4 == 0 && (y % 100 != 0 || y % 400 == 0)

/-- Number of days in month `m` of year `y`. -/
def daysInMonth (y : Int) (m : Nat) : Nat :=
  if m = 2 then (if isLeap y then 29 else 28)
  else if m = 4 ∨ m = 6 ∨ m = 9 ∨ m = 11 then 30
  else 31

/-- Python `d - timedelta(days=1)` on a date. -/
def predDate (d : Date) : Date :=
  if 1 < d.day then ⟨d.year, d.month, d.day - 1⟩
  else if d.month = 1 then ⟨d.year - 1, 12, 31⟩
  else ⟨d.year, d.month - 1, daysInMonth d.year (d.month - 1)⟩

/-- Full English month names recognised by `month_range`. -/
def monthNames : List String :=
  ["january", "february", "march", "april", "may", "june", "july",
   "august", "september", "october", "november", "december"]

/-- Three-letter abbreviations, Python `m[:3]`. -/
def monthShort : List String := monthNames.map (fun m => m.take 3)

/-- Python `s.lower()` (ASCII letters). -/
def pyLower (s : String) : String := String.mk (s.data.map Char.toLower)

/-- `month_range` from `finance_ai.py`: "last month" resolves to the previous
calendar month relative to `today`; a month name or abbreviation resolves to
that month of the current year. -/
def month_range (label : String) (today : Date) : Option (Date × Date) :=
  let label := pyLower label
  if label = "last month" then
    let first : Date := ⟨today.year, today.month, 1⟩
    let lastMonthLastDay := predDate first
    some (⟨lastMonthLastDay.year, lastMonthLastDay.month, 1⟩, lastMonthLastDay)
  else if monthNames.contains label || monthShort.contains label then
    let idx := if monthNames.contains label then monthNames.indexOf label
               else monthShort.indexOf label
    let year := today.year
    let first : Date := ⟨year, idx + 1, 1⟩
    let last : Date :=
      if idx + 1 = 12 then predDate ⟨year + 1, 1, 1⟩ else predDate ⟨year, idx + 2, 1⟩
    some (first, last)
  else none

/-- First calendar day of a month (specification-side helper). -/
def firstDay (y : Int) (m : Nat) : Date := ⟨y, m, 1⟩

/-- Last calendar day of a month (specification-side helper). -/
def lastDay (y : Int) (m : Nat) : Date := ⟨y, m, daysInMonth y m⟩

/-- Year and month of the month preceding the given one. -/
def prevYM (y : Int) (m : Nat) : Int × Nat := if m = 1 then (y - 1, 12) else (y, m - 1)

/-- A categorized transaction row: one row of the data frame produced by
`preprocess_data` and `categorize_transactions`.  `Month` holds the (year,
month) of `Date`; `Category` and `Normalized` are the engine outputs. -/
structure Row where
  Date : Date
  Month : Int × ℕ
  Description : String
  Amount : ℚ
  Category : String
  Normalized : String
deriving DecidableEq, Repr

/-- Distinct values of a list keeping first occurrences, as pandas
`unique`/`nunique`. -/
def uniqueFirst {α : Type} [DecidableEq α] : List α → List α
  | [] => []
  | x :: xs => x :: (uniqueFirst xs).filter (fun y => y != x)

/-- Rounding to the nearest integer with ties to even, as numpy and pandas
`round(0)`: `f` is the floor of `q` and `r` its fractional numerator, so the
comparisons of `2 * r` with the denominator decide whether the fraction is
below, above, or exactly one half. -/
def roundHalfEven (q : ℚ) : ℤ :=
  let f := Int.fdiv q.num q.den
  let r := q.num - f * q.den
  if 2 * r < (q.den : ℤ) then f
  else if (q.den : ℤ) < 2 * r then f + 1
  else if f % 2 = 0 then f else f + 1

/-- Expense rows: `df[df["Amount"] < 0]`. -/
def expRows (df : List Row) : List Row := df.filter (fun r => decide (r.Amount < 0))

/-- Grouping key of `detect_recurring`: normalized merchant text plus the
absolute amount rounded to the nearest whole dollar. -/
def recKey (r : Row) : String × ℤ := (r.Normalized, roundHalfEven |r.Amount|)

/-- Distinct months a recurring key occurs in among the expense rows, pandas
`groupby(["Normalized", "Rounded"])["Month"].nunique()`. -/
def monthsOfKey (df : List Row) (k : String × ℤ) : List (Int × ℕ) :=
  uniqueFirst (((expRows df).filter (fun r => recKey r == k)).map Row.Month)

/-- Ascending order on recurring keys: merchant name first, rounded amount
second, as on the sorted `groupby` index. -/
def recKeyLe (a b : String × ℤ) : Bool :=
  decide (a.1 < b.1 ∨ (a.1 = b.1 ∧ a.2 ≤ b.2))

/-- `detect_recurring` from `finance_ai.py` (caller default `min_months = 3`):
per-key distinct-month counts over expense rows, keys reaching `min_months`
kept, keys ascending.  The source's final `sort_values("Normalized")` re-sorts
a list the `groupby` already ordered by full key, so the composite order is
one lexicographic sort. -/
def detect_recurring (df : List Row) (min_months : ℕ) :
    List ((String × ℤ) × ℕ) :=
  let keys := (uniqueFirst ((expRows df).map recKey)).mergeSort recKeyLe
  (keys.map (fun k => (k, (monthsOfKey df k).length))).filter
    (fun p => decide (min_months ≤ p.2))

/-- Sample rows for concrete witnesses: a Netflix charge in three distinct
months, and a gym charge five times across only two distinct months. -/
def dfRec : List Row :=
  [⟨⟨2025, 1, 5⟩, (2025, 1), "Netflix", -15, "Entertainment", "netflix"⟩,
   ⟨⟨2025, 2, 5⟩, (2025, 2), "Netflix", -15, "Entertainment", "netflix"⟩,
   ⟨⟨2025, 3, 5⟩, (2025, 3), "Netflix", -15, "Entertainment", "netflix"⟩,
   ⟨⟨2025, 1, 2⟩, (2025, 1), "Gym", -20, "Other", "gym"⟩,
   ⟨⟨2025, 1, 9⟩, (2025, 1), "Gym", -20, "Other", "gym"⟩,
   ⟨⟨2025, 1, 16⟩, (2025, 1), "Gym", -20, "Other", "gym"⟩,
   ⟨⟨2025, 2, 2⟩, (2025, 2), "Gym", -20, "Other", "gym"⟩,
   ⟨⟨2025, 2, 9⟩, (2025, 2), "Gym", -20, "Other", "gym"⟩]

/-- Expense rows of one category: a `groupby("Category")` group of
`detect_anomalies`. -/
def catGroup (df : List Row) (c : String) : List Row :=
  (expRows df).filter (fun r => r.Category == c)

/-- Absolute amounts of a category's expense rows. -/
def absList (df : List Row) (c : String) : List ℚ :=
  (catGroup df c).map (fun r => |r.Amount|)

/-- Population mean of the absolute amounts, pandas `mean()`. -/
def meanOf (df : List Row) (c : String) : ℚ :=
  (absList df c).sum / ((absList df c).length : ℚ)

/-- Population variance of the absolute amounts: the square of pandas
`std(ddof=0)`. -/
def varOf (df : List Row) (c : String) : ℚ :=
  ((absList df c).map (fun x => (x - meanOf df c) ^ 2)).sum / ((absList df c).length : ℚ)

/-- Variance with the source's `std(ddof=0) or 1.0` substitution applied: the
square of the divisor actually used for the z-score. -/
def effVar (df : List Row) (c : String) : ℚ :=
  if varOf df c = 0 then 1 else varOf df c

/-- Deviation of a row's absolute amount from its category mean: the z-score
numerator. -/
def devOf (df : List Row) (r : Row) : ℚ := |r.Amount| - meanOf df r.Category

/-- Decidable form of the source's `z > 2.5` test against the substituted
divisor, in cross-multiplied square form; proved equivalent to the real-valued
z-score condition in `flagB_iff_z`. -/
def flagB (df : List Row) (r : Row) : Bool :=
  decide (0 < devOf df r ∧ 25/4 * effVar df r.Category < devOf df r ^ 2)

/-- Descending z-score comparator on flagged rows, in cross-multiplied square
form so that it stays decidable. -/
def zDescLe (df : List Row) (p q : Row) : Bool :=
  decide (devOf df q ^ 2 * effVar df p.Category ≤ devOf df p ^ 2 * effVar df q.Category)

/-- Ascending string comparator, the `groupby` category order. -/
def strLe (a b : String) : Bool := decide (a ≤ b)

/-- `detect_anomalies` from `finance_ai.py`: group expense rows by category,
skip groups of fewer than five rows, flag rows with z-score above 2.5, return
all flagged rows sorted by z-score descending. -/
def detect_anomalies (df : List Row) : List Row :=
  let exp := expRows df
  let cats := (uniqueFirst (exp.map Row.Category)).mergeSort strLe
  let res := (cats.map (fun c =>
    let grp := catGroup df c
    if grp.length < 5 then [] else grp.filter (flagB df))).flatten
  res.mergeSort (zDescLe df)

/-- Outlier row for the anomaly witness. -/
def rBig : Row := ⟨⟨2025, 3, 9⟩, (2025, 3), "Fancy Feast", -100, "Dining", "fancy feast"⟩

/-- Sample rows for the anomaly witness: eight Dining expenses of which
`rBig` has z-score √7 ≈ 2.65 > 2.5. -/
def dfAnom : List Row :=
  [⟨⟨2025, 3, 1⟩, (2025, 3), "Deli", -1, "Dining", "deli"⟩,
   ⟨⟨2025, 3, 2⟩, (2025, 3), "Deli", -1, "Dining", "deli"⟩,
   ⟨⟨2025, 3, 3⟩, (2025, 3), "Deli", -1, "Dining", "deli"⟩,
   ⟨⟨2025, 3, 4⟩, (2025, 3), "Deli", -1, "Dining", "deli"⟩,
   ⟨⟨2025, 3, 5⟩, (2025, 3), "Deli", -1, "Dining", "deli"⟩,
   ⟨⟨2025, 3, 6⟩, (2025, 3), "Deli", -1, "Dining", "deli"⟩,
   ⟨⟨2025, 3, 7⟩, (2025, 3), "Deli", -1, "Dining", "deli"⟩,
   rBig]

/-- Sample rows for the zero-variance witness: five identical Gas expenses. -/
def dfZero : List Row :=
  [⟨⟨2025, 4, 1⟩, (2025, 4), "Gas", -30, "Transport", "gas"⟩,
   ⟨⟨2025, 4, 2⟩, (2025, 4), "Gas", -30, "Transport", "gas"⟩,
   ⟨⟨2025, 4, 3⟩, (2025, 4), "Gas", -30, "Transport", "gas"⟩,
   ⟨⟨2025, 4, 4⟩, (2025, 4), "Gas", -30, "Transport", "gas"⟩,
   ⟨⟨2025, 4, 5⟩, (2025, 4), "Gas", -30, "Transport", "gas"⟩]

/-- Whole-dollar rendering of an amount, Python `f"{v:,.0f}"` with the
thousands separators omitted. -/
def fmt0 (q : ℚ) : String := toString (roundHalfEven q)

/-- Two-decimal dollar rendering, Python `f"{v:,.2f}"` with the thousands
separators omitted: sign, integer dollars, a dot, two cent digits of the
half-even-rounded cents. -/
def fmtUSD (q : ℚ) : String :=
  let cents := roundHalfEven (100 * q)
  let a := cents.natAbs
  (if cents < 0 then "-" else "")
    ++ toString (a / 100) ++ "." ++ (if a % 100 < 10 then "0" else "") ++ toString (a % 100)

/-- Per-category totals of absolute amounts over the given rows, pandas
`groupby("Category")["Abs"].sum()` with its category-ascending index. -/
def catTotals (rows : List Row) : List (String × ℚ) :=
  ((uniqueFirst (rows.map Row.Category)).mergeSort strLe).map
    (fun c => (c, ((rows.filter (fun r => r.Category == c)).map (fun r => |r.Amount|)).sum))

/-- Totals sorted by value descending (stable merge sort, so ties keep the
category-ascending order), pandas `sort_values(ascending=False)`. -/
def totalsDesc (rows : List Row) : List (String × ℚ) :=
  (catTotals rows).mergeSort (fun a b => decide (b.2 ≤ a.2))

/-- Budget lookup, Python `budgets.get(c, 0.0) or 0.0`. -/
def budgetOf (budgets : List (String × ℚ)) (c : String) : ℚ :=
  ((budgets.find? (fun p => p.1 == c)).map Prod.snd).getD 0

/-- Budget-overage lines of `generate_insights` for the current month. -/
def overLines (df : List Row) (budgets : List (String × ℚ)) (curMonth : Int × ℕ) :
    List String :=
  let cur := (expRows df).filter (fun r => r.Month == curMonth)
  if cur.isEmpty then []
  else
    let over := (catTotals cur).filterMap (fun p =>
      let b := budgetOf budgets p.1
      if 0 < b ∧ b < p.2 then some (p.1 ++ " over by $" ++ fmt0 (p.2 - b)) else none)
    if over.isEmpty then [] else ["Budget alerts  " ++ String.intercalate ", " over]

/-- `generate_insights` from `finance_ai.py`, "today"'s month passed in as
`curMonth`: the top-3 spending line, then optional budget-alert, recurring and
anomaly lines; with no expense rows at all, exactly the no-spending message. -/
def generate_insights (df : List Row) (budgets : List (String × ℚ))
    (curMonth : Int × ℕ) : List String :=
  let spend := expRows df
  if spend.isEmpty then ["No spending rows found"]
  else
    let top := (totalsDesc spend).take 3
    let topLine := "Top spending categories  "
      ++ String.intercalate ", " (top.map (fun p => p.1 ++ " $" ++ fmt0 p.2))
    let recs := detect_recurring df 3
    let recLines := if recs.isEmpty then []
      else ["Possible recurring subscriptions  "
        ++ String.intercalate ", " ((recs.map (fun p => p.1.1)).take 5)]
    let anomLines := match detect_anomalies df with
      | [] => []
      | row :: _ => ["Unusual spend  " ++ row.Description ++ " for $"
          ++ fmt0 (|row.Amount|) ++ " in " ++ row.Category]
    topLine :: (overLines df budgets curMonth ++ recLines ++ anomLines)

/-- Python dict insert/update on an association list: an existing key keeps
its position and gets the new value, a new key is appended. -/
def updAssoc (l : List (String × String)) (k v : String) : List (String × String) :=
  if l.any (fun p => p.1 == k) then l.map (fun p => if p.1 == k then (k, v) else p)
  else l ++ [(k, v)]

/-- The `{c.lower(): c for c in cats}` dictionary of `answer_question`, keys
in first-occurrence order of the unique category labels. -/
def catsLower (cats : List String) : List (String × String) :=
  cats.foldl (fun acc c => updAssoc acc (pyLower c) c) []

/-- Category extraction of `answer_question`: the first dictionary key that is
a substring of the lowercased question. -/
def catHit (df : List Row) (q : String) : Option String :=
  ((catsLower (uniqueFirst (df.map Row.Category))).find?
    (fun p => containsSub p.1 q)).map Prod.snd

/-- Month tokens scanned by `answer_question`, abbreviations first. -/
def monthTokens : List String :=
  ["jan", "feb", "mar", "apr", "may", "jun", "jul", "aug", "sep", "oct", "nov", "dec",
   "january", "february", "march", "april", "may", "june", "july", "august",
   "september", "october", "november", "december"]

/-- Time-window extraction of `answer_question`: the literal phrase
"last month" wins, else the first month token occurring in the question. -/
def questionWhen (q : String) : Option String :=
  if containsSub "last month" q then some "last month"
  else monthTokens.find? (fun m => containsSub m q)

/-- The filtered subset of `answer_question`: category filter then date-range
filter, each applied only when extracted. -/
def questionSubset (df : List Row) (question : String) (today : Date) : List Row :=
  let q := pyLower question
  let sub1 := match catHit df q with
    | some c => df.filter (fun r => pyLower r.Category == pyLower c)
    | none => df
  match questionWhen q with
  | some w =>
    match month_range w today with
    | some (s, e) => sub1.filter (fun r => dateLe s r.Date && dateLe r.Date e)
    | none => sub1
  | none => sub1

/-- Sum of the negative amounts of the subset. -/
def spendSum (rows : List Row) : ℚ :=
  ((rows.filter (fun r => decide (r.Amount < 0))).map Row.Amount).sum

/-- Sum of the positive amounts of the subset. -/
def incomeSum (rows : List Row) : ℚ :=
  ((rows.filter (fun r => decide (0 < r.Amount))).map Row.Amount).sum

/-- Spending keywords of the first output branch of `answer_question`. -/
def hasSpendKw (q : String) : Bool :=
  containsSub "spend" q || containsSub "spent" q || containsSub "cost" q

/-- Income keywords of the second output branch of `answer_question`. -/
def hasIncomeKw (q : String) : Bool :=
  containsSub "income" q || containsSub "earn" q || containsSub "made" q

/-- `answer_question` from `finance_ai.py`, "today" passed in; the `budgets`
parameter of the source is unused there and omitted here. -/
def answer_question (df : List Row) (question : String) (today : Date) : String :=
  let q := pyLower question
  let sub := questionSubset df question today
  let spend := spendSum sub
  let income := incomeSum sub
  if hasSpendKw q then "You spent $" ++ fmtUSD (-spend)
  else if hasIncomeKw q then "Income $" ++ fmtUSD income
  else "Net total $" ++ fmtUSD (income + spend)

/-- Sample row for the question-answer witness. -/
def dfQ : List Row :=
  [⟨⟨2026, 10, 1⟩, (2026, 10), "Store", -5, "Other", "store"⟩]

/-- A transaction row before categorization, as produced by `preprocess_data`:
no `Category` or `Normalized` column yet. -/
structure RawRow where
  Date : Date
  Month : Int × ℕ
  Description : String
  Amount : ℚ
deriving DecidableEq, Repr

/-- `categorize_transactions` from `finance_ai.py`: compute category and
normalized text for every row from its `Description` and `Amount`, copy the
frame, append the two columns. -/
def categorize_transactions (df : List RawRow)
    (rules : List (String × List String)) : List Row :=
  df.map (fun t =>
    let p := categorize_row t.Description t.Amount rules
    ⟨t.Date, t.Month, t.Description, t.Amount, p.1, p.2⟩)

/-- Original columns of a categorized row (specification-side helper). -/
def stripRow (r : Row) : RawRow := ⟨r.Date, r.Month, r.Description, r.Amount⟩

theorem expenseLoop_eq_spec (text : String) (rules : List (String × List String)) :
    (match expenseLoop text rules with
     | some cat => cat
     | none => "Other") = specExpenseCategory text rules := by
  induction rules with
  | nil => rfl
  | cons p rest ih =>
    obtain ⟨cat, kws⟩ := p
    by_cases hinc : cat == "Income"
    · simp only [expenseLoop, specExpenseCategory, List.find?, hinc, if_true, bne,
        Bool.not_true, Bool.false_and] at *
      exact ih
    · simp only [expenseLoop, specExpenseCategory, List.find?, hinc, if_false, bne,
        Bool.not_false, Bool.true_and, Bool.if_false_left] at *
      by_cases hany : kws.any (fun kw => containsSub kw text)
      · simp [hinc, hany]
      · simp only [hany, if_false, Bool.false_eq_true] at *
        simpa [hinc, hany] using ih

/-- C1: for every description string, every rule set and every amount strictly
greater than zero, `categorize_row` returns the category "Income", regardless
of which keywords occur in the normalized description. -/
theorem categorize_row_income (desc : String) (amount : ℚ)
    (rules : List (String × List String)) (h : 0 < amount) :
    (categorize_row desc amount rules).1 = "Income" := by
  unfold categorize_row
  simp only [if_pos h]
  split <;> rfl

/-- Witness for C1 at a description that matches a Groceries keyword. -/
theorem categorize_row_income_witness :
    (0 : ℚ) < 5 ∧ (categorize_row "Walmart refund" 5 default_category_rules).1 = "Income" :=
  ⟨by norm_num, categorize_row_income "Walmart refund" 5 default_category_rules (by norm_num)⟩

/-- C2: for every amount at most zero, `categorize_row` yields the first
category in the stored rule order, "Income" skipped, one of whose keywords is a
substring of the normalized description, with "Other" when nothing matches. -/
theorem categorize_row_expense (desc : String) (amount : ℚ)
    (rules : List (String × List String)) (h : amount ≤ 0) :
    categorize_row desc amount rules =
      (specExpenseCategory (normalize_text desc) rules, normalize_text desc) := by
  unfold categorize_row
  simp only [if_neg (not_lt.mpr h)]
  rw [← expenseLoop_eq_spec (normalize_text desc) rules]
  split <;> simp_all

/-- Witness for C2: with rules `{"A": ["x"], "B": ["x"]}` in that insertion
order and a negative-amount row whose description normalizes to "x", the
category resolves to "A". -/
theorem categorize_row_expense_witness :
    (-1 : ℚ) ≤ 0 ∧ categorize_row "x" (-1) [("A", ["x"]), ("B", ["x"])] = ("A", "x") := by
  refine ⟨by norm_num, ?_⟩
  rw [categorize_row_expense "x" (-1) [("A", ["x"]), ("B", ["x"])] (by norm_num)]
  decide

/-- C3 fails on the code: `normalize_text` strips before replacing punctuation
with spaces, so `"a!"` normalizes to `"a "` with a trailing space, violating
the claimed output shape, and a second application gives `"a"`, violating
idempotence. -/
theorem normalize_text_not_idempotent :
    normalize_text "a!" = "a " ∧
    normalize_text (normalize_text "a!") = "a" ∧
    normalize_text (normalize_text "a!") ≠ normalize_text "a!" := by
  refine ⟨by decide, by decide, by decide⟩

/-- C8: `month_range` resolves "last month" to the first and last calendar day
of the month preceding today's month, rolling the year back in January, and
resolves every full month name or three-letter abbreviation to the first and
last calendar day of that month in the current year, December included. -/
theorem month_range_spec (today : Date) (h1 : 1 ≤ today.month) (h2 : today.month ≤ 12) :
    (month_range "last month" today =
      some (firstDay (prevYM today.year today.month).1 (prevYM today.year today.month).2,
            lastDay (prevYM today.year today.month).1 (prevYM today.year today.month).2))
    ∧ ∀ i : Nat, i < 12 → ∀ lbl : String,
        (monthNames.get? i = some lbl ∨ monthShort.get? i = some lbl) →
        month_range lbl today = some (firstDay today.year (i + 1), lastDay today.year (i + 1)) := by
  constructor
  · by_cases hm : today.month = 1
    · simp [month_range, pyLower, predDate, prevYM, firstDay, lastDay, daysInMonth, hm]
    · have hgt : 1 < today.month := lt_of_le_of_ne h1 (fun he => hm he.symm)
      simp [month_range, pyLower, predDate, prevYM, firstDay, lastDay, hm,
        Nat.not_lt.mpr (le_refl 1)]
  · intro i hi lbl hlbl
    interval_cases i <;>
      (simp only [monthNames, monthShort, List.get?, List.map] at hlbl ;
       rcases hlbl with h | h <;> (injection h with h; subst h) <;>
       first
         | rfl
         | (rw [show lastDay today.year 12 = (⟨today.year + 1 - 1, 12, 31⟩ : Date) from by
              simp [lastDay, daysInMonth]]
            rfl))

/-- Witness for C8: in January 2026, "last month" resolves to December 2025,
and "jul" resolves to July 2026. -/
theorem month_range_spec_witness :
    (1 ≤ (Date.mk 2026 1 15).month ∧ (Date.mk 2026 1 15).month ≤ 12)
    ∧ month_range "last month" (Date.mk 2026 1 15) =
        some (Date.mk 2025 12 1, Date.mk 2025 12 31)
    ∧ month_range "jul" (Date.mk 2026 1 15) =
        some (Date.mk 2026 7 1, Date.mk 2026 7 31) := by
  refine ⟨⟨by norm_num, by norm_num⟩, ?_, ?_⟩
  · have h := (month_range_spec (Date.mk 2026 1 15) (by norm_num) (by norm_num)).1
    simpa [prevYM, firstDay, lastDay, daysInMonth, isLeap] using h
  · have h := (month_range_spec (Date.mk 2026 1 15) (by norm_num) (by norm_num)).2
      6 (by norm_num) "jul" (Or.inr (by decide))
    simpa [firstDay, lastDay, daysInMonth, isLeap] using h

theorem mem_uniqueFirst {α : Type} [DecidableEq α] (a : α) (l : List α) :
    a ∈ uniqueFirst l ↔ a ∈ l := by
  induction l with
  | nil => simp [uniqueFirst]
  | cons x xs ih =>
    simp only [uniqueFirst, List.mem_cons, List.mem_filter, bne_iff_ne, ne_eq]
    constructor
    · rintro (rfl | ⟨h, _⟩)
      · exact Or.inl rfl
      · exact Or.inr (ih.mp h)
    · rintro (rfl | h)
      · exact Or.inl rfl
      · by_cases hax : a = x
        · exact Or.inl hax
        · exact Or.inr ⟨ih.mpr h, hax⟩

theorem recKeyLe_trans (a b c : String × ℤ)
    (hab : recKeyLe a b = true) (hbc : recKeyLe b c = true) : recKeyLe a c = true := by
  simp only [recKeyLe, decide_eq_true_eq] at *
  rcases hab with h | ⟨he, h2⟩ <;> rcases hbc with h' | ⟨he', h2'⟩
  · exact Or.inl (lt_trans h h')
  · exact Or.inl (by rw [← he']; exact h)
  · exact Or.inl (by rw [he]; exact h')
  · exact Or.inr ⟨he.trans he', le_trans h2 h2'⟩

theorem recKeyLe_total (a b : String × ℤ) : (recKeyLe a b || recKeyLe b a) = true := by
  simp only [recKeyLe, Bool.or_eq_true, decide_eq_true_eq]
  rcases lt_trichotomy a.1 b.1 with h | h | h
  · exact Or.inl (Or.inl h)
  · rcases le_total a.2 b.2 with h2 | h2
    · exact Or.inl (Or.inr ⟨h, h2⟩)
    · exact Or.inr (Or.inr ⟨h.symm, h2⟩)
  · exact Or.inr (Or.inl h)

/-- C4: `detect_recurring` looks only at expense rows, keys them by normalized
merchant and rounded absolute amount, counts distinct months per key, keeps
exactly the keys whose distinct-month count reaches `min_months`, and returns
them sorted ascending by merchant name with a deterministic tie order; a key
seen in two distinct months is never emitted at the default threshold 3,
however many rows it has. -/
theorem detect_recurring_spec (df : List Row) :
    (∀ m : ℕ, (detect_recurring df m).Pairwise
      (fun a b => a.1.1 < b.1.1 ∨ (a.1.1 = b.1.1 ∧ a.1.2 ≤ b.1.2)))
    ∧ (∀ m : ℕ, ∀ k : String × ℤ, ∀ n : ℕ,
        ((k, n) ∈ detect_recurring df m ↔
          (k ∈ (expRows df).map recKey ∧ n = (monthsOfKey df k).length ∧ m ≤ n)))
    ∧ (∀ k : String × ℤ, (monthsOfKey df k).length = 2 →
        ∀ n : ℕ, (k, n) ∉ detect_recurring df 3) := by
  have hmem : ∀ m : ℕ, ∀ k : String × ℤ, ∀ n : ℕ,
      ((k, n) ∈ detect_recurring df m ↔
        (k ∈ (expRows df).map recKey ∧ n = (monthsOfKey df k).length ∧ m ≤ n)) := by
    intro m k n
    simp only [detect_recurring, List.mem_filter, List.mem_map, Prod.mk.injEq,
      decide_eq_true_eq, (List.mergeSort_perm _ _).mem_iff, mem_uniqueFirst]
    constructor
    · rintro ⟨⟨a, ha, rfl, rfl⟩, h2⟩
      exact ⟨ha, rfl, h2⟩
    · rintro ⟨ha, rfl, h2⟩
      exact ⟨⟨k, ha, rfl, rfl⟩, h2⟩
  refine ⟨?_, hmem, ?_⟩
  · intro m
    have hkeys := List.sorted_mergeSort recKeyLe_trans recKeyLe_total
      (uniqueFirst ((expRows df).map recKey))
    refine List.Pairwise.sublist (List.filter_sublist _) ?_
    rw [List.pairwise_map]
    exact hkeys.imp (fun h => of_decide_eq_true h)
  · intro k hk n hn
    have h := (hmem 3 k n).mp hn
    rw [hk] at h
    omega

/-- Witness for C4: on `dfRec` the Netflix key is reported with three distinct
months, while the Gym key, charged five times in two distinct months, is
absent at the default threshold. -/
theorem detect_recurring_spec_witness :
    (("netflix", (15 : ℤ)), 3) ∈ detect_recurring dfRec 3
    ∧ ∀ n : ℕ, (("gym", (20 : ℤ)), n) ∉ detect_recurring dfRec 3 := by
  constructor
  · exact ((detect_recurring_spec dfRec).2.1 3 ("netflix", 15) 3).mpr
      ⟨by decide, by decide, by decide⟩
  · intro n
    exact (detect_recurring_spec dfRec).2.2 ("gym", 20) (by decide) n

theorem varOf_nonneg (df : List Row) (c : String) : 0 ≤ varOf df c := by
  apply div_nonneg
  · apply List.sum_nonneg
    intro x hx
    obtain ⟨y, _, rfl⟩ := List.mem_map.mp hx
    exact sq_nonneg _
  · exact Nat.cast_nonneg _

theorem effVar_pos (df : List Row) (c : String) : 0 < effVar df c := by
  by_cases h : varOf df c = 0
  · simp [effVar, h]
  · simp only [effVar, if_neg h]
    exact lt_of_le_of_ne (varOf_nonneg df c) (Ne.symm h)

theorem list_sum_sq_zero {l : List ℚ} (hnn : ∀ x ∈ l, 0 ≤ x) (h0 : l.sum = 0) :
    ∀ x ∈ l, x = 0 := by
  induction l with
  | nil => intro x hx; cases hx
  | cons a l ih =>
    have hs : 0 ≤ l.sum := List.sum_nonneg (fun x hx => hnn x (List.mem_cons_of_mem a hx))
    have ha : 0 ≤ a := hnn a (List.mem_cons_self a l)
    rw [List.sum_cons] at h0
    have ha0 : a = 0 := by linarith
    have hl0 : l.sum = 0 := by linarith
    intro x hx
    rcases List.mem_cons.mp hx with rfl | hx'
    · exact ha0
    · exact ih (fun y hy => hnn y (List.mem_cons_of_mem a hy)) hl0 x hx'

theorem mem_catGroup_iff (df : List Row) (c : String) (r : Row) :
    r ∈ catGroup df c ↔ r ∈ expRows df ∧ r.Category = c := by
  simp [catGroup, List.mem_filter]

theorem devOf_eq_zero_of_var_zero (df : List Row) (r : Row)
    (hr : r ∈ catGroup df r.Category) (hv : varOf df r.Category = 0) :
    devOf df r = 0 := by
  have hmem_abs : |r.Amount| ∈ absList df r.Category := List.mem_map_of_mem _ hr
  have hne : absList df r.Category ≠ [] := List.ne_nil_of_mem hmem_abs
  have hlen : ((absList df r.Category).length : ℚ) ≠ 0 :=
    Nat.cast_ne_zero.mpr (List.length_pos.mpr hne).ne'
  have hsum : ((absList df r.Category).map
      (fun x => (x - meanOf df r.Category) ^ 2)).sum = 0 := by
    rcases div_eq_zero_iff.mp hv with h | h
    · exact h
    · exact absurd h hlen
  have hx : (|r.Amount| - meanOf df r.Category) ^ 2 ∈
      (absList df r.Category).map (fun x => (x - meanOf df r.Category) ^ 2) :=
    List.mem_map_of_mem _ hmem_abs
  have hz := list_sum_sq_zero (fun x hx => by
      obtain ⟨y, _, rfl⟩ := List.mem_map.mp hx
      exact sq_nonneg _) hsum _ hx
  have : |r.Amount| - meanOf df r.Category = 0 := by
    exact (pow_eq_zero_iff (by norm_num)).mp hz
  simpa [devOf] using this

theorem flagB_iff_z (df : List Row) (r : Row) (hr : r ∈ catGroup df r.Category) :
    flagB df r = true ↔
      (5/2 : ℝ) < (devOf df r : ℝ) / Real.sqrt (varOf df r.Category : ℝ) := by
  rcases eq_or_lt_of_le (varOf_nonneg df r.Category) with hv | hv
  · have hv0 : varOf df r.Category = 0 := hv.symm
    have hd : devOf df r = 0 := devOf_eq_zero_of_var_zero df r hr hv0
    constructor
    · intro hf
      have h := of_decide_eq_true hf
      rw [hd] at h
      exact absurd h.1 (lt_irrefl 0)
    · intro hz
      rw [hd, hv0] at hz
      norm_num at hz
  · have hvR : (0:ℝ) < (varOf df r.Category : ℝ) := by exact_mod_cast hv
    have hsq : (0:ℝ) < Real.sqrt (varOf df r.Category : ℝ) := Real.sqrt_pos.mpr hvR
    have hev : effVar df r.Category = varOf df r.Category := if_neg hv.ne'
    have h52 : Real.sqrt (25/4 * (varOf df r.Category : ℝ)) =
        5/2 * Real.sqrt (varOf df r.Category : ℝ) := by
      rw [Real.sqrt_mul (by norm_num : (0:ℝ) ≤ 25/4)]
      congr 1
      rw [show (25/4 : ℝ) = (5/2) ^ 2 by norm_num]
      exact Real.sqrt_sq (by norm_num)
    rw [flagB, decide_eq_true_eq, lt_div_iff₀ hsq]
    constructor
    · rintro ⟨hd, hlt⟩
      have hdR : (0:ℝ) < (devOf df r : ℝ) := by exact_mod_cast hd
      have hltR : ((25/4 * varOf df r.Category : ℚ) : ℝ) < ((devOf df r ^ 2 : ℚ) : ℝ) := by
        rw [hev] at hlt
        exact_mod_cast hlt
      push_cast at hltR
      have hs := (Real.sqrt_lt' hdR).mpr hltR
      rw [h52] at hs
      exact hs
    · intro hz
      have hd : (0:ℝ) < (devOf df r : ℝ) :=
        lt_trans (mul_pos (by norm_num) hsq) hz
      have hs : Real.sqrt (25/4 * (varOf df r.Category : ℝ)) < (devOf df r : ℝ) := by
        rw [h52]; exact hz
      have hlt := (Real.sqrt_lt' hd).mp hs
      have hltQ : ((25/4 * varOf df r.Category : ℚ) : ℝ) < ((devOf df r ^ 2 : ℚ) : ℝ) := by
        push_cast
        exact hlt
      refine ⟨by exact_mod_cast hd, ?_⟩
      rw [hev]
      exact_mod_cast hltQ

theorem zDescLe_trans (df : List Row) (p q r : Row)
    (h1 : zDescLe df p q = true) (h2 : zDescLe df q r = true) : zDescLe df p r = true := by
  simp only [zDescLe, decide_eq_true_eq] at *
  have hp := effVar_pos df p.Category
  have hq := effVar_pos df q.Category
  have hr := effVar_pos df r.Category
  have k1 := mul_le_mul_of_nonneg_right h1 hr.le
  have k2 := mul_le_mul_of_nonneg_right h2 hp.le
  have key : effVar df q.Category * (devOf df r ^ 2 * effVar df p.Category) ≤
      effVar df q.Category * (devOf df p ^ 2 * effVar df r.Category) := by
    nlinarith [k1, k2]
  exact le_of_mul_le_mul_left key hq

theorem zDescLe_total (df : List Row) (p q : Row) :
    (zDescLe df p q || zDescLe df q p) = true := by
  simp only [zDescLe, Bool.or_eq_true, decide_eq_true_eq]
  exact le_total _ _

theorem strLe_trans (a b c : String) (h1 : strLe a b = true) (h2 : strLe b c = true) :
    strLe a c = true := by
  simp only [strLe, decide_eq_true_eq] at *
  exact le_trans h1 h2

theorem strLe_total (a b : String) : (strLe a b || strLe b a) = true := by
  simp only [strLe, Bool.or_eq_true, decide_eq_true_eq]
  exact le_total a b

theorem mem_detect_anomalies (df : List Row) (r : Row) :
    r ∈ detect_anomalies df ↔
      (r ∈ expRows df ∧ 5 ≤ (catGroup df r.Category).length ∧ flagB df r = true) := by
  simp only [detect_anomalies]
  rw [(List.mergeSort_perm _ _).mem_iff]
  simp only [List.mem_flatten, List.mem_map]
  constructor
  · rintro ⟨l, ⟨c, hc, rfl⟩, hrl⟩
    by_cases hlen : (catGroup df c).length < 5
    · rw [if_pos hlen] at hrl; cases hrl
    · rw [if_neg hlen] at hrl
      obtain ⟨hgrp, hflag⟩ := List.mem_filter.mp hrl
      obtain ⟨hexp, hcat⟩ := (mem_catGroup_iff df c r).mp hgrp
      subst hcat
      exact ⟨hexp, by omega, hflag⟩
  · rintro ⟨hexp, h5, hflag⟩
    refine ⟨(catGroup df r.Category).filter (flagB df), ⟨r.Category, ?_, ?_⟩, ?_⟩
    · rw [(List.mergeSort_perm _ _).mem_iff, mem_uniqueFirst]
      exact List.mem_map_of_mem _ hexp
    · rw [if_neg (by omega)]
    · exact List.mem_filter.mpr ⟨(mem_catGroup_iff df _ r).mpr ⟨hexp, rfl⟩, hflag⟩

theorem z_pos_facts (df : List Row) (r : Row)
    (hz : (5/2 : ℝ) < (devOf df r : ℝ) / Real.sqrt (varOf df r.Category : ℝ)) :
    0 < varOf df r.Category ∧ (0:ℝ) < (devOf df r : ℝ) := by
  have hs0 : (0:ℝ) ≤ Real.sqrt (varOf df r.Category : ℝ) := Real.sqrt_nonneg _
  rcases eq_or_lt_of_le hs0 with h0 | hpos
  · rw [← h0, div_zero] at hz
    norm_num at hz
  · have hv : (0:ℝ) < (varOf df r.Category : ℝ) := Real.sqrt_pos.mp hpos
    refine ⟨by exact_mod_cast hv, ?_⟩
    have hlt := (lt_div_iff₀ hpos).mp hz
    have := mul_pos (show (0:ℝ) < 5/2 by norm_num) hpos
    linarith

theorem zDescLe_to_real (df : List Row) (p q : Row)
    (hzp : (5/2 : ℝ) < (devOf df p : ℝ) / Real.sqrt (varOf df p.Category : ℝ))
    (hzq : (5/2 : ℝ) < (devOf df q : ℝ) / Real.sqrt (varOf df q.Category : ℝ))
    (hpq : zDescLe df p q = true) :
    (devOf df q : ℝ) / Real.sqrt (varOf df q.Category : ℝ) ≤
      (devOf df p : ℝ) / Real.sqrt (varOf df p.Category : ℝ) := by
  obtain ⟨hvp, hdp⟩ := z_pos_facts df p hzp
  obtain ⟨hvq, hdq⟩ := z_pos_facts df q hzq
  have hvpR : (0:ℝ) < (varOf df p.Category : ℝ) := by exact_mod_cast hvp
  have hvqR : (0:ℝ) < (varOf df q.Category : ℝ) := by exact_mod_cast hvq
  have hsp := Real.sqrt_pos.mpr hvpR
  have hsq := Real.sqrt_pos.mpr hvqR
  rw [div_le_div_iff₀ hsq hsp]
  simp only [zDescLe, decide_eq_true_eq] at hpq
  rw [effVar, if_neg hvp.ne', effVar, if_neg hvq.ne'] at hpq
  have hR : ((devOf df q ^ 2 * varOf df p.Category : ℚ) : ℝ) ≤
      ((devOf df p ^ 2 * varOf df q.Category : ℚ) : ℝ) := by exact_mod_cast hpq
  push_cast at hR
  have ha2 : ((devOf df q : ℝ) * Real.sqrt (varOf df p.Category : ℝ)) ^ 2 ≤
      ((devOf df p : ℝ) * Real.sqrt (varOf df q.Category : ℝ)) ^ 2 := by
    rw [mul_pow, mul_pow, Real.sq_sqrt hvpR.le, Real.sq_sqrt hvqR.le]
    exact hR
  have hroot := Real.sqrt_le_sqrt ha2
  rwa [Real.sqrt_sq (mul_nonneg hdq.le hsp.le),
    Real.sqrt_sq (mul_nonneg hdp.le hsq.le)] at hroot

/-- C5: `detect_anomalies` returns exactly the expense rows of categories with
at least five expense rows whose z-score, the deviation of the absolute amount
from the category population mean divided by the category population standard
deviation, strictly exceeds 2.5; the result is sorted by z-score descending,
and the empty result is an ordinary outcome. -/
theorem detect_anomalies_spec (df : List Row) :
    (∀ r : Row, r ∈ detect_anomalies df ↔
      (r ∈ expRows df ∧ 5 ≤ (catGroup df r.Category).length ∧
        (5/2 : ℝ) < (devOf df r : ℝ) / Real.sqrt (varOf df r.Category : ℝ)))
    ∧ (detect_anomalies df).Pairwise (fun p q =>
        (devOf df q : ℝ) / Real.sqrt (varOf df q.Category : ℝ) ≤
          (devOf df p : ℝ) / Real.sqrt (varOf df p.Category : ℝ))
    ∧ detect_anomalies ([] : List Row) = [] := by
  have hchar : ∀ r : Row, r ∈ detect_anomalies df ↔
      (r ∈ expRows df ∧ 5 ≤ (catGroup df r.Category).length ∧
        (5/2 : ℝ) < (devOf df r : ℝ) / Real.sqrt (varOf df r.Category : ℝ)) := by
    intro r
    rw [mem_detect_anomalies]
    constructor
    · rintro ⟨hexp, h5, hflag⟩
      have hg : r ∈ catGroup df r.Category := (mem_catGroup_iff df _ r).mpr ⟨hexp, rfl⟩
      exact ⟨hexp, h5, (flagB_iff_z df r hg).mp hflag⟩
    · rintro ⟨hexp, h5, hz⟩
      have hg : r ∈ catGroup df r.Category := (mem_catGroup_iff df _ r).mpr ⟨hexp, rfl⟩
      exact ⟨hexp, h5, (flagB_iff_z df r hg).mpr hz⟩
  refine ⟨hchar, ?_, by simp [detect_anomalies, expRows, uniqueFirst, List.mergeSort_nil]⟩
  have hPW : (detect_anomalies df).Pairwise (fun p q => zDescLe df p q = true) := by
    simp only [detect_anomalies]
    exact List.sorted_mergeSort (zDescLe_trans df) (zDescLe_total df) _
  refine hPW.imp_of_mem ?_
  intro p q hp hq hpq
  exact zDescLe_to_real df p q ((hchar p).mp hp).2.2 ((hchar q).mp hq).2.2 hpq

/-- Witness for C5: in `dfAnom` the outlier row is returned, its z-score √7
exceeding 2.5. -/
theorem detect_anomalies_spec_witness :
    rBig ∈ detect_anomalies dfAnom
    ∧ (5/2 : ℝ) < (devOf dfAnom rBig : ℝ) / Real.sqrt (varOf dfAnom rBig.Category : ℝ) := by
  have hexp : rBig ∈ expRows dfAnom := by
    simp [expRows, dfAnom, rBig, List.filter]
  have hlen : 5 ≤ (catGroup dfAnom rBig.Category).length := by
    norm_num [catGroup, expRows, dfAnom, rBig, List.filter]
  have hdev : devOf dfAnom rBig = 693/8 := by
    norm_num [devOf, meanOf, absList, catGroup, expRows, dfAnom, rBig, List.filter]
  have hvar : varOf dfAnom rBig.Category = 68607/64 := by
    norm_num [varOf, meanOf, absList, catGroup, expRows, dfAnom, rBig, List.filter]
  have hz : (5/2 : ℝ) < (devOf dfAnom rBig : ℝ) / Real.sqrt (varOf dfAnom rBig.Category : ℝ) := by
    rw [hdev, hvar]
    have hcast1 : ((693/8 : ℚ) : ℝ) = 693/8 := by norm_num
    have hcast2 : ((68607/64 : ℚ) : ℝ) = 68607/64 := by norm_num
    rw [hcast1, hcast2]
    have hpos : (0:ℝ) < Real.sqrt (68607/64) := Real.sqrt_pos.mpr (by norm_num)
    rw [lt_div_iff₀ hpos]
    have hs : Real.sqrt ((68607:ℝ)/64) < 693/20 :=
      (Real.sqrt_lt' (by norm_num)).mpr (by norm_num)
    linarith
  exact ⟨((detect_anomalies_spec dfAnom).1 rBig).mpr ⟨hexp, hlen, hz⟩, hz⟩

/-- C6: when a qualifying category's population standard deviation is exactly
zero, the source's `or 1.0` substitutes 1.0 as the divisor, every z-score of
the category is zero, and no row of the category is flagged or returned. -/
theorem anomaly_zero_std_guard (df : List Row) (c : String)
    (h5 : 5 ≤ (catGroup df c).length)
    (h0 : Real.sqrt (varOf df c : ℝ) = 0) :
    (if Real.sqrt (varOf df c : ℝ) = 0 then (1:ℝ) else Real.sqrt (varOf df c : ℝ)) = 1
    ∧ (∀ r ∈ catGroup df c, (devOf df r : ℝ) / 1 = 0 ∧ flagB df r = false)
    ∧ ∀ r ∈ detect_anomalies df, r.Category ≠ c := by
  have hv0 : varOf df c = 0 := by
    have hnn := varOf_nonneg df c
    have hle : (varOf df c : ℝ) ≤ 0 := Real.sqrt_eq_zero'.mp h0
    have hle2 : varOf df c ≤ 0 := by exact_mod_cast hle
    linarith
  refine ⟨by rw [h0]; simp, ?_, ?_⟩
  · intro r hr
    have hcat : r.Category = c := ((mem_catGroup_iff df c r).mp hr).2
    have hg : r ∈ catGroup df r.Category := by rw [hcat]; exact hr
    have hd : devOf df r = 0 := devOf_eq_zero_of_var_zero df r hg (by rw [hcat]; exact hv0)
    refine ⟨by rw [hd]; simp, ?_⟩
    rw [flagB, decide_eq_false_iff_not]
    rintro ⟨hlt, _⟩
    rw [hd] at hlt
    exact lt_irrefl 0 hlt
  · intro r hrmem hc
    obtain ⟨hexp, _, hflag⟩ := (mem_detect_anomalies df r).mp hrmem
    have hg : r ∈ catGroup df r.Category := (mem_catGroup_iff df _ r).mpr ⟨hexp, rfl⟩
    have hd : devOf df r = 0 := devOf_eq_zero_of_var_zero df r hg (by rw [hc]; exact hv0)
    have hfl := of_decide_eq_true hflag
    rw [hd] at hfl
    exact lt_irrefl 0 hfl.1

/-- Witness for C6: five identical Gas expenses give variance zero, the
divisor collapses to 1, and no Transport row is returned. -/
theorem anomaly_zero_std_guard_witness :
    5 ≤ (catGroup dfZero "Transport").length
    ∧ (if Real.sqrt (varOf dfZero "Transport" : ℝ) = 0 then (1:ℝ)
        else Real.sqrt (varOf dfZero "Transport" : ℝ)) = 1
    ∧ ∀ r ∈ detect_anomalies dfZero, r.Category ≠ "Transport" := by
  have hvar : varOf dfZero "Transport" = 0 := by
    norm_num [varOf, meanOf, absList, catGroup, expRows, dfZero, List.filter]
  have h0 : Real.sqrt ((varOf dfZero "Transport" : ℚ) : ℝ) = 0 := by
    rw [hvar]
    simp
  have h5 : 5 ≤ (catGroup dfZero "Transport").length := by
    norm_num [catGroup, expRows, dfZero, List.filter]
  obtain ⟨h1, _, h3⟩ := anomaly_zero_std_guard dfZero "Transport" h5 h0
  exact ⟨h5, h1, h3⟩

/-- C7: `generate_insights` is total, and on any transaction table with no
negative-amount row — the empty table included — it returns exactly the single
no-spending message, skipping the budget-overage, recurring and anomaly
steps. -/
theorem generate_insights_no_spend (df : List Row) (budgets : List (String × ℚ))
    (curMonth : Int × ℕ) (h : expRows df = []) :
    generate_insights df budgets curMonth = ["No spending rows found"] := by
  simp [generate_insights, h]

/-- Witness for C7 at the empty transaction table. -/
theorem generate_insights_no_spend_witness :
    expRows ([] : List Row) = []
    ∧ generate_insights [] [] (2026, 10) = ["No spending rows found"] :=
  ⟨rfl, generate_insights_no_spend [] [] (2026, 10) rfl⟩

/-- C9: `answer_question` selects its reply by keyword presence checked in a
fixed order — spending words first, then income words, then the net fallback —
reporting the negated outflow sum, the inflow sum, or inflow plus outflow over
the filtered subset; exactly one of the three branches fires on any call. -/
theorem answer_question_branches (df : List Row) (question : String) (today : Date) :
    (hasSpendKw (pyLower question) = true →
      answer_question df question today =
        "You spent $" ++ fmtUSD (-(spendSum (questionSubset df question today))))
    ∧ (hasSpendKw (pyLower question) = false → hasIncomeKw (pyLower question) = true →
      answer_question df question today =
        "Income $" ++ fmtUSD (incomeSum (questionSubset df question today)))
    ∧ (hasSpendKw (pyLower question) = false → hasIncomeKw (pyLower question) = false →
      answer_question df question today =
        "Net total $" ++ fmtUSD (incomeSum (questionSubset df question today)
          + spendSum (questionSubset df question today)))
    ∧ (hasSpendKw (pyLower question) = true
        ∨ (hasSpendKw (pyLower question) = false ∧ hasIncomeKw (pyLower question) = true)
        ∨ (hasSpendKw (pyLower question) = false
            ∧ hasIncomeKw (pyLower question) = false)) := by
  refine ⟨?_, ?_, ?_, ?_⟩
  · intro h
    simp [answer_question, h]
  · intro h1 h2
    simp [answer_question, h1, h2]
  · intro h1 h2
    simp [answer_question, h1, h2]
  · cases hs : hasSpendKw (pyLower question) <;> cases hi : hasIncomeKw (pyLower question) <;>
      simp

/-- Witness for C9: a spending question over a single −5 row answers with the
positive dollar amount. -/
theorem answer_question_branches_witness :
    hasSpendKw (pyLower "How much did I spend") = true
    ∧ answer_question dfQ "How much did I spend" ⟨2026, 10, 12⟩ = "You spent $5.00" := by
  have hkw : hasSpendKw (pyLower "How much did I spend") = true := by decide
  have hsub : questionSubset dfQ "How much did I spend" ⟨2026, 10, 12⟩ = dfQ := by decide
  have hsum : spendSum dfQ = -5 := by
    norm_num [spendSum, dfQ, List.filter]
  have h := (answer_question_branches dfQ "How much did I spend" ⟨2026, 10, 12⟩).1 hkw
  rw [hsub, hsum] at h
  have h1 : (-(-5) : ℚ) = 5 := by norm_num
  rw [h1] at h
  have hfmt : fmtUSD (5 : ℚ) = "5.00" := by
    have h2 : (100 : ℚ) * 5 = 500 := by norm_num
    rw [fmtUSD, h2]
    decide
  rw [hfmt] at h
  exact ⟨hkw, h⟩

/-- C10: `categorize_transactions` keeps every row in order with all original
columns unchanged and appends exactly the `Category`/`Normalized` pair that
`categorize_row` computes from the row's description and amount; being a pure
function of the copied frame, it does not mutate its input. -/
theorem categorize_transactions_frame (df : List RawRow)
    (rules : List (String × List String)) :
    (categorize_transactions df rules).map stripRow = df
    ∧ (categorize_transactions df rules).length = df.length
    ∧ ∀ i : ℕ, ((categorize_transactions df rules).get? i).map
        (fun r => (r.Category, r.Normalized))
        = (df.get? i).map (fun t => categorize_row t.Description t.Amount rules) := by
  refine ⟨?_, by simp [categorize_transactions], ?_⟩
  · induction df with
    | nil => rfl
    | cons t ts ih =>
      simpa [categorize_transactions, stripRow] using ih
  · intro i
    simp only [categorize_transactions, List.get?_map, Option.map_map]
    rfl
